import Mathlib

/-
Verification of the vblank / page-flip event coordination core of the
modesetting display driver (hw/xfree86/drivers/modesetting).

The repository ships only the interface header `driver.h`; the bodies of
`ms_drm_queue_alloc`, `ms_queue_vblank`, `ms_drm_abort`, `ms_drm_abort_seq`,
the completion dispatcher, `ms_do_pageflip`, `ms_kernel_msc_to_crtc_msc`,
`ms_window_has_variable_refresh` and `ms_present_set_screen_vrr` are not in
the source tree.  Each operation below is therefore modelled from the
specification (spec.md), against the types declared in `driver.h`.

Handlers are shallowly embedded: instead of C function pointers, every
handler invocation is recorded as an `Event` in an explicit trace, and every
tracked request carries a ghost allocation identity `uid` so that "fires
exactly once per request" can be stated even when 32-bit sequence numbers
are eventually reused.
-/

namespace MsDrm

/-- width of the 32-bit sequence identifier space of `ms_drm_queue_alloc` -/
def seqWidth : Nat := 2 ^ 32

/-- Modelled from the spec: one entry of the pending-request registry
(`struct ms_drm_queue` in driver.h; the registry body is not in src/).
`uid` is a ghost allocation identity, `crtc` the owning output, `seq` the
32-bit sequence identifier, `data` the opaque payload reference, and
`is_flip` records whether the entry was registered through the page-flip
path (i.e. carries the `pageflip_handler`/`pageflip_abort` handler pair). -/
structure Entry where
  uid : Nat
  crtc : Nat
  seq : Nat
  data : Nat
  is_flip : Bool
deriving Repr, DecidableEq

/-- Modelled from the spec: a handler invocation.  `completed` stands for a
call of the request's `ms_drm_handler_proc` with (frame, usec, data);
`aborted` stands for a call of its `ms_drm_abort_proc` with the payload. -/
inductive Event where
  | completed (uid seq frame usec data : Nat)
  | aborted (uid seq data : Nat)
deriving Repr, DecidableEq

/-- ghost allocation identity carried by a handler invocation -/
def Event.uid : Event → Nat
  | .completed u _ _ _ _ => u
  | .aborted u _ _ => u

/-- kernel submission style used by the vblank scheduler -/
inductive Style where
  | queueSequence
  | fallback
deriving Repr, DecidableEq

/-- Modelled from the spec: the mutable per-driver-instance state behind
`modesettingRec` that the claims are about: the pending-request registry in
insertion order, the 32-bit allocator counter, the ghost allocation counter,
the cached queue-sequence capability probe (`has_queue_sequence` /
`tried_queue_sequence` fields of `modesettingRec`), a ghost count of probes
issued, and a ghost journal of the styles of submitted kernel requests. -/
structure State where
  queue : List Entry
  ms_drm_seq : Nat
  next_uid : Nat
  has_queue_sequence : Bool
  tried_queue_sequence : Bool
  probe_count : Nat
  styles : List Style
deriving Repr, DecidableEq

/-- the driver instance state right after device open -/
def init : State :=
  { queue := [], ms_drm_seq := 0, next_uid := 0,
    has_queue_sequence := false, tried_queue_sequence := false,
    probe_count := 0, styles := [] }

/-- whether sequence identifier `s` is held by an outstanding request -/
def seqTaken (q : List Entry) (s : Nat) : Bool :=
  q.any (fun e => e.seq == s)

/-- Modelled from the spec: the sequence allocator search (spec 4.1): advance
the 32-bit counter, wrapping, skipping zero and every identifier still held
by an outstanding request; the fuel bounds the number of candidates tried. -/
def findFreeSeq : Nat → Nat → List Entry → Option Nat
  | 0, _, _ => none
  | fuel + 1, cur, q =>
    let cand := (cur + 1) % seqWidth
    if cand != 0 && !seqTaken q cand then some cand
    else findFreeSeq fuel cand q

/-- Modelled from the spec: `ms_drm_queue_alloc` (declared in driver.h, body
not in src/).  Produces a non-zero 32-bit identifier distinct from every
outstanding one (spec 4.1), registers the tracked request at the tail of the
registry, and returns the identifier; `none` models allocation failure, in
which case nothing is registered. -/
def ms_drm_queue_alloc (st : State) (crtc data : Nat) (is_flip : Bool) :
    Option (Nat × State) :=
  match findFreeSeq (st.queue.length + 2) st.ms_drm_seq st.queue with
  | none => none
  | some s =>
    some (s, { st with
               queue := st.queue ++ [⟨st.next_uid, crtc, s, data, is_flip⟩],
               ms_drm_seq := s,
               next_uid := st.next_uid + 1 })

/-- remove the first registry entry with sequence `s`, returning the kept
entries in order together with the removed entry, if any -/
def removeFirstSeq (s : Nat) : List Entry → List Entry × Option Entry
  | [] => ([], none)
  | e :: rest =>
    if e.seq == s then (rest, some e)
    else
      let (q', r) := removeFirstSeq s rest
      (e :: q', r)

/-- Modelled from the spec: the completion dispatcher (spec 4.4; consumer of
`event_context` in driver.h, body not in src/).  Resolve the sequence to a
tracked request; if found, invoke its completion handler with (frame, usec,
payload) and discard the entry; if not found, discard the event silently. -/
def ms_drm_handler (st : State) (s frame usec : Nat) : State × List Event :=
  match removeFirstSeq s st.queue with
  | (q', none) => ({ st with queue := q' }, [])
  | (q', some e) =>
    ({ st with queue := q' }, [.completed e.uid e.seq frame usec e.data])

/-- traverse the registry in insertion order, removing every entry matching
`p`; returns the kept entries and the removed entries, both in order -/
def sweepP (p : Entry → Bool) : List Entry → List Entry × List Entry
  | [] => ([], [])
  | e :: rest =>
    let (k, r) := sweepP p rest
    if p e then (k, e :: r) else (e :: k, r)

/-- Modelled from the spec: `ms_drm_abort` (declared in driver.h, body not
in src/).  Sweep the registry in stable insertion order; every entry whose
payload matches the predicate has its abort handler invoked and is removed
(spec 4.2, 4.4); non-matching entries are untouched. -/
def ms_drm_abort (st : State) (m : Nat → Bool) : State × List Event :=
  match sweepP (fun e => m e.data) st.queue with
  | (k, r) => ({ st with queue := k }, r.map (fun e => .aborted e.uid e.seq e.data))

/-- Modelled from the spec: `ms_drm_abort_seq` (declared in driver.h, body
not in src/).  Targeted abort: resolve the exact sequence; if an entry is
found, invoke its abort handler and remove it; otherwise do nothing
(spec 4.4: aborting an already-completed or already-aborted sequence is a
no-op). -/
def ms_drm_abort_seq (st : State) (s : Nat) : State × List Event :=
  match removeFirstSeq s st.queue with
  | (q', none) => ({ st with queue := q' }, [])
  | (q', some e) => ({ st with queue := q' }, [.aborted e.uid e.seq e.data])

/-- Modelled from the spec: the view of one output (CRTC) that the vblank
scheduler needs: whether the output has a live, active CRTC resource
(`xf86_crtc_on`) and its current hardware frame counter. -/
structure Crtc where
  id : Nat
  active : Bool
  current_msc : Nat
deriving Repr, DecidableEq

/-- the `ms_queue_flag` enum of driver.h -/
inductive QueueFlag where
  | absolute
  | relative
  | nextOnMiss
deriving Repr, DecidableEq

/-- Modelled from the spec: target-counter resolution of the vblank
scheduler (spec 4.3).  ABSOLUTE uses the requested counter as is; RELATIVE
offsets it from the current hardware counter; NEXT_ON_MISS re-targets an
already-elapsed target to the next vblank instead of failing. -/
def resolve_target (flag : QueueFlag) (current msc : Nat) : Nat :=
  match flag with
  | .absolute => msc
  | .relative => current + msc
  | .nextOnMiss => if msc ≤ current then current + 1 else msc

/-- capability-cache update on a vblank submission: the first attempt probes
the queue-sequence capability and caches the result in `has_queue_sequence`
/ `tried_queue_sequence`; later attempts reuse the cache (spec 4.3). -/
def cap_update (st : State) (supports : Bool) : State :=
  if st.tried_queue_sequence then st
  else { st with tried_queue_sequence := true, has_queue_sequence := supports,
                 probe_count := st.probe_count + 1 }

/-- kernel submission style chosen for a vblank request: queue-sequence when
the (probed or cached) capability is present, otherwise the fallback
event-loop-driven polling style (spec 4.3). -/
def cap_style (st : State) (supports : Bool) : Style :=
  if st.tried_queue_sequence then
    if st.has_queue_sequence then .queueSequence else .fallback
  else
    if supports then .queueSequence else .fallback

/-- record in the ghost style journal that a kernel request of the given
style has been submitted -/
def styles_push (st : State) (sty : Style) : State :=
  { st with styles := st.styles ++ [sty] }

/-- result of `ms_queue_vblank`: success flag, updated state, the sequence
identifier of the registered request, and the resolved counter value written
to the `msc_queued` out-parameter -/
structure QueueResult where
  ok : Bool
  st : State
  seq : Nat
  msc_queued : Nat
deriving Repr, DecidableEq

/-- Modelled from the spec: `ms_queue_vblank` (declared in driver.h, body
not in src/).  Fails with no request registered when the output has no live
CRTC (`xf86_crtc_on` false), when the kernel rejects the request (`kernel_ok`
oracle), or when allocation fails; otherwise resolves the target counter,
allocates a sequence, registers a tracked request and reports the resolved
counter (spec 2, 4.3).  `supports` is the kernel's answer to the
queue-sequence capability probe. -/
def ms_queue_vblank (st : State) (crtc : Crtc) (flag : QueueFlag)
    (msc data : Nat) (supports kernel_ok : Bool) : QueueResult :=
  if !crtc.active then ⟨false, st, 0, 0⟩
  else
    let st2 := styles_push (cap_update st supports) (cap_style st supports)
    if !kernel_ok then ⟨false, st2, 0, 0⟩
    else
      match ms_drm_queue_alloc st2 crtc.id data false with
      | none => ⟨false, st2, 0, 0⟩
      | some (s, st3) =>
        ⟨true, st3, s, resolve_target flag crtc.current_msc msc⟩

/-- whether a page flip is still in flight: some tracked request registered
through the page-flip path is outstanding (the `pending_modeset` in-flight
guard of spec 4.5) -/
def ms_pending_flip (st : State) : Bool :=
  st.queue.any (fun e => e.is_flip)

/-- result of `ms_do_pageflip`: success flag, updated state, and the
sequence identifier of the registered request -/
structure FlipResult where
  ok : Bool
  st : State
  seq : Nat
deriving Repr, DecidableEq

/-- Modelled from the spec: `ms_do_pageflip` (declared in driver.h, body not
in src/).  Fails synchronously with no request registered and no state
change when a prior flip is still in flight, or when the buffer cannot be
bound / the session is not master (`flip_ok` oracle), or when allocation
fails; on success registers a tracked request carrying the
`pageflip_handler`/`pageflip_abort` pair (spec 4.5). -/
def ms_do_pageflip (st : State) (crtc data : Nat) (flip_ok : Bool) :
    FlipResult :=
  if ms_pending_flip st then ⟨false, st, 0⟩
  else if !flip_ok then ⟨false, st, 0⟩
  else
    match ms_drm_queue_alloc st crtc data true with
    | none => ⟨false, st, 0⟩
    | some (s, st') => ⟨true, st', s⟩

/-- Modelled from the spec: the VRR state of one driver instance (spec 3,
4.6; fields `is_connector_vrr_capable`, VRR enablement and `flip_window` of
`modesettingRec`): negotiated capability, enabled flag, and the window
currently considered the presentation target. -/
structure VrrState where
  is_connector_vrr_capable : Bool
  vrr_enabled : Bool
  flip_window : Option Nat
deriving Repr, DecidableEq

/-- Modelled from the spec: `ms_window_has_variable_refresh` (declared in
driver.h, body not in src/): true iff VRR is negotiated, enabled, and the
window is the current flip target (spec 4.6). -/
def ms_window_has_variable_refresh (vs : VrrState) (win : Nat) : Bool :=
  vs.is_connector_vrr_capable && vs.vrr_enabled && (vs.flip_window == some win)

/-- Modelled from the spec: `ms_present_set_screen_vrr` (declared in
driver.h, body not in src/): transitions the enabled state only, with no
effect on negotiated capability or the flip target (spec 4.6). -/
def ms_present_set_screen_vrr (vs : VrrState) (vrr_enabled : Bool) : VrrState :=
  { vs with vrr_enabled := vrr_enabled }

/-- Modelled from the spec: the per-output frame-counter reconciliation
state (spec 3, "Frame Counter State"): the last kernel-reported 32-bit
counter value and the accumulated wrap epoch (a multiple of 2^32). -/
structure CrtcMscState where
  msc_prev : Nat
  msc_high : Nat
deriving Repr, DecidableEq

/-- Modelled from the spec: `ms_kernel_msc_to_crtc_msc` (declared in
driver.h, body not in src/).  Maps the kernel-reported sequence into the
64-bit software frame counter, reconciling against a counter that may wrap
(spec 4.3): a 64-bit kernel sequence passes through; a 32-bit one is
compared with the previous value, and a decrease is taken as a wraparound,
adding one 2^32 epoch so the software counter never goes backwards. -/
def ms_kernel_msc_to_crtc_msc (cs : CrtcMscState) (sequence : Nat)
    (is64bit : Bool) : Nat × CrtcMscState :=
  if is64bit then (sequence, cs)
  else
    let seq := sequence % seqWidth
    if seq < cs.msc_prev then
      (cs.msc_high + seqWidth + seq, ⟨seq, cs.msc_high + seqWidth⟩)
    else
      (cs.msc_high + seq, ⟨seq, cs.msc_high⟩)

/-- Modelled from the spec: one stimulus to the coordination core: a vblank
scheduling call, a page-flip call, a kernel completion event for a sequence,
a predicate abort sweep, or a targeted abort. -/
inductive Cmd where
  | queueVblank (crtc : Crtc) (flag : QueueFlag) (msc data : Nat)
                (supports kernel_ok : Bool)
  | pageflip (crtc data : Nat) (flip_ok : Bool)
  | complete (s frame usec : Nat)
  | abortSweep (m : Nat → Bool)
  | abortSeq (s : Nat)

/-- one step of the coordination core: the state update together with the
handler invocations it performs -/
def step (st : State) : Cmd → State × List Event
  | .queueVblank crtc flag msc data sup ko =>
    ((ms_queue_vblank st crtc flag msc data sup ko).st, [])
  | .pageflip crtc data fo => ((ms_do_pageflip st crtc data fo).st, [])
  | .complete s frame usec => ms_drm_handler st s frame usec
  | .abortSweep m => ms_drm_abort st m
  | .abortSeq s => ms_drm_abort_seq st s

/-- run a list of stimuli, concatenating the handler-invocation traces -/
def run (st : State) : List Cmd → State × List Event
  | [] => (st, [])
  | c :: cs =>
    ((run (step st c).1 cs).1, (step st c).2 ++ (run (step st c).1 cs).2)

/-- number of handler invocations in a trace for the request with ghost
identity `u` -/
def firedCount (tr : List Event) (u : Nat) : Nat :=
  tr.countP (fun ev => ev.uid == u)

/-- number of outstanding registry entries with ghost identity `u` -/
def queueCount (q : List Entry) (u : Nat) : Nat :=
  q.countP (fun e => e.uid == u)

/-! ### Helper lemmas about the registry traversals -/

theorem sweepP_eq_filter (p : Entry → Bool) (q : List Entry) :
    sweepP p q = (q.filter (fun e => !p e), q.filter p) := by
  induction q with
  | nil => rfl
  | cons e rest ih =>
    by_cases hp : p e <;> simp [sweepP, ih, hp]

theorem removeFirstSeq_of_not_mem (s : Nat) (q : List Entry)
    (h : ∀ e ∈ q, e.seq ≠ s) : removeFirstSeq s q = (q, none) := by
  induction q with
  | nil => rfl
  | cons e rest ih =>
    have he : e.seq ≠ s := h e (List.mem_cons_self e rest)
    have : removeFirstSeq s rest = (rest, none) :=
      ih (fun x hx => h x (List.mem_cons_of_mem e hx))
    simp [removeFirstSeq, he, this]

theorem removeFirstSeq_decompose (s : Nat) (a : List Entry) (e : Entry)
    (b : List Entry) (ha : ∀ x ∈ a, x.seq ≠ s) (he : e.seq = s) :
    removeFirstSeq s (a ++ e :: b) = (a ++ b, some e) := by
  induction a with
  | nil => simp [removeFirstSeq, he]
  | cons x rest ih =>
    have hx : x.seq ≠ s := ha x (List.mem_cons_self x rest)
    have hr := ih (fun y hy => ha y (List.mem_cons_of_mem x hy))
    simp [removeFirstSeq, hx, hr]

theorem removeFirstSeq_append_fresh (s : Nat) (q : List Entry) (e : Entry)
    (hq : ∀ x ∈ q, x.seq ≠ s) (he : e.seq = s) :
    removeFirstSeq s (q ++ [e]) = (q, some e) := by
  have := removeFirstSeq_decompose s q e [] hq he
  simpa using this

theorem removeFirstSeq_some (s : Nat) (q : List Entry) :
    ∀ q' e, removeFirstSeq s q = (q', some e) →
      ∃ a b, q = a ++ e :: b ∧ q' = a ++ b ∧ (∀ x ∈ a, x.seq ≠ s) ∧ e.seq = s := by
  induction q with
  | nil => intro q' e h; simp [removeFirstSeq] at h
  | cons x rest ih =>
    intro q' e h
    by_cases hx : x.seq = s
    · simp [removeFirstSeq, hx] at h
      obtain ⟨hq', hxe⟩ := h
      subst hxe
      exact ⟨[], rest, by simp, by simp [hq'], by simp, hx⟩
    · simp only [removeFirstSeq, beq_iff_eq, hx, if_false] at h
      rcases hrec : removeFirstSeq s rest with ⟨r', ro⟩
      rw [hrec] at h
      cases ro with
      | none => simp at h
      | some e0 =>
        simp only [Prod.mk.injEq, Option.some.injEq] at h
        obtain ⟨hq', he0⟩ := h
        obtain ⟨a, b, hrest, hr', ha, hes⟩ := ih r' e0 hrec
        subst he0
        exact ⟨x :: a, b, by simp [hrest], by simp [← hq', hr'],
               by intro y hy; rcases List.mem_cons.mp hy with h1 | h2;
                  · exact h1 ▸ hx
                  · exact ha y h2, hes⟩

theorem removeFirstSeq_fst_no_match (s : Nat) (q : List Entry)
    (hN : (q.map Entry.seq).Nodup) :
    ∀ x ∈ (removeFirstSeq s q).1, x.seq ≠ s := by
  rcases h : removeFirstSeq s q with ⟨q', r⟩
  cases r with
  | none =>
    intro x hx
    induction q generalizing q' with
    | nil => simp [removeFirstSeq] at h; subst h; simp at hx
    | cons y rest ih =>
      by_cases hy : y.seq = s
      · simp [removeFirstSeq, hy] at h
      · simp only [removeFirstSeq, beq_iff_eq, hy, if_false] at h
        rcases hrec : removeFirstSeq s rest with ⟨r', ro⟩
        rw [hrec] at h
        cases ro with
        | none =>
          simp only [Prod.mk.injEq] at h
          rcases h with ⟨hq', -⟩
          subst hq'
          rcases List.mem_cons.mp hx with h1 | h2
          · exact h1 ▸ hy
          · exact ih (List.Nodup.of_cons (by simpa using hN)) r' hrec h2
        | some e0 => simp at h
  | some e =>
    intro x hx
    obtain ⟨a, b, hq, hq', ha, hes⟩ := removeFirstSeq_some s q q' e h
    subst hq
    simp only [List.map_append, List.map_cons] at hN
    have hnot : e.seq ∉ (a.map Entry.seq) ∧ e.seq ∉ (b.map Entry.seq) := by
      have h1 := List.Nodup.not_mem (List.Nodup.of_append_right hN)
      have h2 : ∀ y ∈ a.map Entry.seq, y ≠ e.seq ∧ True := by
        intro y hy
        constructor
        · intro hcontra
          have := (List.disjoint_of_nodup_append hN) hy
          simp [hcontra] at this
        · trivial
      exact ⟨fun hmem => (h2 e.seq hmem).1 rfl, h1⟩
    subst hq'
    rcases List.mem_append.mp hx with h1 | h2
    · exact ha x h1
    · intro hxs
      apply hnot.2
      have hxe : x.seq = e.seq := by rw [hxs, hes]
      rw [← hxe]
      exact List.mem_map_of_mem Entry.seq h2

/-! ### Helper lemmas about the sequence allocator -/

theorem findFreeSeq_some (fuel : Nat) :
    ∀ cur q s, findFreeSeq fuel cur q = some s →
      s ≠ 0 ∧ s < seqWidth ∧ ∀ e ∈ q, e.seq ≠ s := by
  induction fuel with
  | zero => intro cur q s h; simp [findFreeSeq] at h
  | succ n ih =>
    intro cur q s h
    simp only [findFreeSeq] at h
    by_cases hc : ((cur + 1) % seqWidth != 0 && !seqTaken q ((cur + 1) % seqWidth)) = true
    · rw [if_pos hc] at h
      simp only [Bool.and_eq_true] at hc
      obtain ⟨h1, h2⟩ := hc
      obtain rfl : (cur + 1) % seqWidth = s := by injection h
      refine ⟨by simpa using h1, Nat.mod_lt _ (by simp [seqWidth]), ?_⟩
      intro e he hcontra
      have : seqTaken q ((cur + 1) % seqWidth) = true := by
        simp only [seqTaken, List.any_eq_true]
        exact ⟨e, he, by simp [hcontra]⟩
      simp [this] at h2
    · rw [if_neg hc] at h
      exact ih _ _ _ h

theorem ms_drm_queue_alloc_some (st : State) (crtc data : Nat) (fl : Bool)
    (s : Nat) (st' : State)
    (h : ms_drm_queue_alloc st crtc data fl = some (s, st')) :
    s ≠ 0 ∧ s < seqWidth ∧ (∀ e ∈ st.queue, e.seq ≠ s) ∧
      st' = { st with queue := st.queue ++ [⟨st.next_uid, crtc, s, data, fl⟩],
                      ms_drm_seq := s, next_uid := st.next_uid + 1 } := by
  unfold ms_drm_queue_alloc at h
  rcases hF : findFreeSeq (st.queue.length + 2) st.ms_drm_seq st.queue with _ | s0
  · rw [hF] at h; simp at h
  · rw [hF] at h
    simp only [Option.some.injEq, Prod.mk.injEq] at h
    obtain ⟨rfl, rfl⟩ := h
    obtain ⟨h1, h2, h3⟩ := findFreeSeq_some _ _ _ _ hF
    exact ⟨h1, h2, h3, rfl⟩

theorem ms_drm_queue_alloc_none_or_some (st : State) (crtc data : Nat)
    (fl : Bool) :
    ms_drm_queue_alloc st crtc data fl = none ∨
      ∃ s, ms_drm_queue_alloc st crtc data fl =
        some (s, { st with queue := st.queue ++ [⟨st.next_uid, crtc, s, data, fl⟩],
                           ms_drm_seq := s, next_uid := st.next_uid + 1 }) := by
  rcases h : ms_drm_queue_alloc st crtc data fl with _ | ⟨s, st'⟩
  · exact Or.inl rfl
  · right
    obtain ⟨-, -, -, h4⟩ := ms_drm_queue_alloc_some st crtc data fl s st' h
    exact ⟨s, by rw [← h4]⟩

/-! ### Helper lemmas about the capability cache and the scheduler -/

theorem cap_update_queue (st : State) (sup : Bool) :
    (cap_update st sup).queue = st.queue ∧
    (cap_update st sup).ms_drm_seq = st.ms_drm_seq ∧
    (cap_update st sup).next_uid = st.next_uid ∧
    (cap_update st sup).styles = st.styles := by
  unfold cap_update; split <;> simp

theorem cap_update_tried (st : State) (sup : Bool) :
    (cap_update st sup).tried_queue_sequence = true ∨ cap_update st sup = st := by
  unfold cap_update
  split
  · exact Or.inr rfl
  · exact Or.inl rfl

/-- full case analysis of `ms_queue_vblank`: either it fails and the
registry, allocator counter and ghost allocation counter are untouched, or
it succeeds and exactly one fresh tracked request has been appended and the
resolved target counter is reported. -/
theorem ms_queue_vblank_spec (st : State) (crtc : Crtc) (flag : QueueFlag)
    (msc data : Nat) (supports kernel_ok : Bool) :
    ((ms_queue_vblank st crtc flag msc data supports kernel_ok).ok = false ∧
     (ms_queue_vblank st crtc flag msc data supports kernel_ok).st.queue = st.queue ∧
     (ms_queue_vblank st crtc flag msc data supports kernel_ok).st.ms_drm_seq = st.ms_drm_seq ∧
     (ms_queue_vblank st crtc flag msc data supports kernel_ok).st.next_uid = st.next_uid) ∨
    ((ms_queue_vblank st crtc flag msc data supports kernel_ok).ok = true ∧
     ∃ s, (ms_queue_vblank st crtc flag msc data supports kernel_ok).seq = s ∧
       s ≠ 0 ∧ s < seqWidth ∧ (∀ e ∈ st.queue, e.seq ≠ s) ∧
       (ms_queue_vblank st crtc flag msc data supports kernel_ok).st.queue =
         st.queue ++ [⟨st.next_uid, crtc.id, s, data, false⟩] ∧
       (ms_queue_vblank st crtc flag msc data supports kernel_ok).st.next_uid =
         st.next_uid + 1 ∧
       (ms_queue_vblank st crtc flag msc data supports kernel_ok).msc_queued =
         resolve_target flag crtc.current_msc msc) := by
  obtain ⟨hq, hs, hu, -⟩ := cap_update_queue st supports
  have hq2 : (styles_push (cap_update st supports) (cap_style st supports)).queue = st.queue := by
    simp [styles_push, hq]
  have hs2 : (styles_push (cap_update st supports) (cap_style st supports)).ms_drm_seq = st.ms_drm_seq := by
    simp [styles_push, hs]
  have hu2 : (styles_push (cap_update st supports) (cap_style st supports)).next_uid = st.next_uid := by
    simp [styles_push, hu]
  unfold ms_queue_vblank
  cases hA : crtc.active with
  | false => left; simp
  | true =>
    simp only [Bool.not_true, Bool.false_eq_true, if_false]
    cases hK : kernel_ok with
    | false => left; simp [hq2, hs2, hu2]
    | true =>
      simp only [Bool.not_true, Bool.false_eq_true, if_false]
      rcases ms_drm_queue_alloc_none_or_some
          (styles_push (cap_update st supports) (cap_style st supports))
          crtc.id data false with hAl | ⟨s, hAl⟩
      · rw [hAl]; left; simp [hq2, hs2, hu2]
      · rw [hAl]
        right
        refine ⟨rfl, s, rfl, ?_⟩
        obtain ⟨h1, h2, h3, -⟩ :=
          ms_drm_queue_alloc_some _ crtc.id data false s _ hAl
        rw [hq2] at h3
        exact ⟨h1, h2, h3, by simp [hq2, hu2], by simp [hu2], rfl⟩

/-- full case analysis of `ms_do_pageflip`: either it fails synchronously
with the state untouched, or it succeeds and exactly one fresh flip-carrying
tracked request has been appended. -/
theorem ms_do_pageflip_spec (st : State) (crtc data : Nat) (flip_ok : Bool) :
    ((ms_do_pageflip st crtc data flip_ok).ok = false ∧
     (ms_do_pageflip st crtc data flip_ok).st = st) ∨
    ((ms_do_pageflip st crtc data flip_ok).ok = true ∧
     ∃ s, (ms_do_pageflip st crtc data flip_ok).seq = s ∧
       s ≠ 0 ∧ s < seqWidth ∧ (∀ e ∈ st.queue, e.seq ≠ s) ∧
       (ms_do_pageflip st crtc data flip_ok).st.queue =
         st.queue ++ [⟨st.next_uid, crtc, s, data, true⟩] ∧
       (ms_do_pageflip st crtc data flip_ok).st.next_uid = st.next_uid + 1) := by
  unfold ms_do_pageflip
  cases hP : ms_pending_flip st with
  | true => left; simp
  | false =>
    simp only [Bool.false_eq_true, if_false]
    cases hF : flip_ok with
    | false => left; simp
    | true =>
      simp only [Bool.not_true, Bool.false_eq_true, if_false]
      rcases ms_drm_queue_alloc_none_or_some st crtc data true with hAl | ⟨s, hAl⟩
      · rw [hAl]; left; simp
      · rw [hAl]
        right
        refine ⟨rfl, s, rfl, ?_⟩
        obtain ⟨h1, h2, h3, -⟩ := ms_drm_queue_alloc_some st crtc data true s _ hAl
        exact ⟨h1, h2, h3, by simp, by simp⟩

theorem removeFirstSeq_none_eq (s : Nat) (q : List Entry) :
    ∀ q', removeFirstSeq s q = (q', none) → q' = q := by
  induction q with
  | nil =>
    intro q' h
    simp only [removeFirstSeq, Prod.mk.injEq] at h
    exact h.1.symm
  | cons e rest ih =>
    intro q' h
    by_cases he : e.seq = s
    · simp [removeFirstSeq, he] at h
    · simp only [removeFirstSeq, beq_iff_eq, he, if_false] at h
      rcases hrec : removeFirstSeq s rest with ⟨r', ro⟩
      rw [hrec] at h
      cases ro with
      | none =>
        simp only [Prod.mk.injEq] at h
        rw [← h.1, ih r' hrec]
      | some e0 => simp at h

/-! ### The exactly-once accounting invariant -/

theorem countP_filter_partition (p g : Entry → Bool) (l : List Entry) :
    (l.filter p).countP g + (l.filter (fun a => !p a)).countP g = l.countP g := by
  induction l with
  | nil => simp
  | cons a l ih =>
    by_cases hp : p a <;> by_cases hg : g a <;>
      simp [hp, hg, List.countP_cons] <;> omega

/-- the accounting invariant tying the registry to the handler-invocation
trace: every ghost identity below the allocation counter belongs either to
exactly one outstanding registry entry or to exactly one handler invocation
in the trace, never to both and never to more than one. -/
def Inv (st : State) (tr : List Event) : Prop :=
  (∀ e ∈ st.queue, e.uid < st.next_uid) ∧
  (∀ ev ∈ tr, ev.uid < st.next_uid) ∧
  ∀ u, u < st.next_uid → firedCount tr u + queueCount st.queue u = 1

theorem countP_singleton_event (ev : Event) (u : Nat) :
    List.countP (fun x => Event.uid x == u) [ev] =
      if Event.uid ev = u then 1 else 0 := by
  simp [List.countP_cons]

theorem countP_entries_zero (l : List Entry) (u : Nat)
    (h : ∀ e ∈ l, e.uid ≠ u) :
    List.countP (fun e => e.uid == u) l = 0 := by
  rw [List.countP_eq_zero]
  intro e he
  simp [h e he]

theorem countP_events_zero (l : List Event) (u : Nat)
    (h : ∀ ev ∈ l, Event.uid ev ≠ u) :
    List.countP (fun ev => Event.uid ev == u) l = 0 := by
  rw [List.countP_eq_zero]
  intro ev hev
  simp [h ev hev]

theorem inv_init : Inv init [] := by
  refine ⟨?_, ?_, ?_⟩ <;> intro x hx <;> simp [init] at hx

theorem inv_of_eq (st st' : State) (tr : List Event) (hInv : Inv st tr)
    (hq : st'.queue = st.queue) (hu : st'.next_uid = st.next_uid) :
    Inv st' tr := by
  obtain ⟨h1, h2, h3⟩ := hInv
  exact ⟨by rw [hq, hu]; exact h1, by rw [hu]; exact h2,
         by rw [hq, hu]; exact h3⟩

theorem inv_insert (st st' : State) (tr : List Event) (c s d : Nat) (fl : Bool)
    (hInv : Inv st tr)
    (hq : st'.queue = st.queue ++ [⟨st.next_uid, c, s, d, fl⟩])
    (hu : st'.next_uid = st.next_uid + 1) :
    Inv st' tr := by
  obtain ⟨h1, h2, h3⟩ := hInv
  refine ⟨?_, ?_, ?_⟩
  · intro e he
    rw [hq] at he
    rw [hu]
    rcases List.mem_append.mp he with h | h
    · exact Nat.lt_succ_of_lt (h1 e h)
    · simp only [List.mem_singleton] at h
      subst h
      simp
  · intro ev hev
    rw [hu]
    exact Nat.lt_succ_of_lt (h2 ev hev)
  · intro u hu'
    rw [hu] at hu'
    rw [hq]
    unfold firedCount queueCount at h3 ⊢
    rw [List.countP_append, List.countP_cons, List.countP_nil]
    simp only [beq_iff_eq]
    rcases Nat.lt_succ_iff_lt_or_eq.mp hu' with h | h
    · have hsum := h3 u h
      have hne : st.next_uid ≠ u := Nat.ne_of_gt h
      rw [if_neg hne]
      omega
    · subst h
      rw [if_pos rfl]
      have hf := countP_events_zero tr st.next_uid
        (fun ev hev => Nat.ne_of_lt (h2 ev hev))
      have hqz := countP_entries_zero st.queue st.next_uid
        (fun e he => Nat.ne_of_lt (h1 e he))
      omega

theorem inv_remove_some (st st' : State) (tr : List Event) (s : Nat)
    (q' : List Entry) (e : Entry) (ev : Event)
    (hInv : Inv st tr)
    (hR : removeFirstSeq s st.queue = (q', some e))
    (hq : st'.queue = q') (hu : st'.next_uid = st.next_uid)
    (hev : ev.uid = e.uid) :
    Inv st' (tr ++ [ev]) := by
  obtain ⟨h1, h2, h3⟩ := hInv
  obtain ⟨a, b, hqd, hq'd, -, -⟩ := removeFirstSeq_some s st.queue q' e hR
  have heq : e ∈ st.queue := by rw [hqd]; simp
  refine ⟨?_, ?_, ?_⟩
  · intro x hx
    rw [hq, hq'd] at hx
    rw [hu]
    apply h1
    rw [hqd]
    rcases List.mem_append.mp hx with h | h
    · exact List.mem_append.mpr (Or.inl h)
    · exact List.mem_append.mpr (Or.inr (List.mem_cons_of_mem e h))
  · intro x hx
    rw [hu]
    rcases List.mem_append.mp hx with h | h
    · exact h2 x h
    · simp only [List.mem_singleton] at h
      subst h
      rw [hev]
      exact h1 e heq
  · intro u hult
    rw [hu] at hult
    have hsum := h3 u hult
    rw [hq, hq'd]
    rw [hqd] at hsum
    unfold firedCount queueCount at hsum ⊢
    rw [List.countP_append, List.countP_cons] at hsum
    rw [List.countP_append, List.countP_append, countP_singleton_event, hev]
    simp only [beq_iff_eq] at hsum
    split_ifs at hsum ⊢ <;> omega

theorem inv_sweep (st st' : State) (tr : List Event) (p : Entry → Bool)
    (mkEv : Entry → Event)
    (hUid : ∀ e, (mkEv e).uid = e.uid)
    (hInv : Inv st tr)
    (hq : st'.queue = st.queue.filter (fun e => !p e))
    (hu : st'.next_uid = st.next_uid) :
    Inv st' (tr ++ (st.queue.filter p).map mkEv) := by
  obtain ⟨h1, h2, h3⟩ := hInv
  refine ⟨?_, ?_, ?_⟩
  · intro x hx
    rw [hq] at hx
    rw [hu]
    exact h1 x (List.mem_of_mem_filter hx)
  · intro x hx
    rw [hu]
    rcases List.mem_append.mp hx with h | h
    · exact h2 x h
    · obtain ⟨e, he, rfl⟩ := List.mem_map.mp h
      rw [hUid]
      exact h1 e (List.mem_of_mem_filter he)
  · intro u hult
    rw [hu] at hult
    have hsum := h3 u hult
    have hpart := countP_filter_partition p (fun e => e.uid == u) st.queue
    have hmap : List.countP (fun x => Event.uid x == u) ((st.queue.filter p).map mkEv) =
        List.countP (fun e => e.uid == u) (st.queue.filter p) := by
      rw [List.countP_map]
      apply List.countP_congr
      intro e he
      simp [Function.comp, hUid]
    rw [hq]
    unfold firedCount queueCount at hsum ⊢
    rw [List.countP_append, hmap]
    omega

/-- one step of the coordination core preserves the accounting invariant -/
theorem step_inv (st : State) (tr : List Event) (c : Cmd) (hInv : Inv st tr) :
    Inv (step st c).1 (tr ++ (step st c).2) := by
  cases c with
  | queueVblank crtc flag msc data sup ko =>
    simp only [step, List.append_nil]
    rcases ms_queue_vblank_spec st crtc flag msc data sup ko with
      ⟨-, hq, -, hu⟩ | ⟨-, s, -, -, -, -, hq, hu, -⟩
    · exact inv_of_eq st _ tr hInv hq hu
    · exact inv_insert st _ tr crtc.id s data false hInv hq hu
  | pageflip crtc data fo =>
    simp only [step, List.append_nil]
    rcases ms_do_pageflip_spec st crtc data fo with
      ⟨-, hst⟩ | ⟨-, s, -, -, -, -, hq, hu⟩
    · rw [hst]; exact hInv
    · exact inv_insert st _ tr crtc s data true hInv hq hu
  | complete s frame usec =>
    simp only [step]
    rcases hR : removeFirstSeq s st.queue with ⟨q', ro⟩
    cases ro with
    | none =>
      simp only [ms_drm_handler, hR, List.append_nil]
      exact inv_of_eq st _ tr hInv (removeFirstSeq_none_eq s st.queue q' hR) rfl
    | some e =>
      simp only [ms_drm_handler, hR]
      exact inv_remove_some st _ tr s q' e _ hInv hR rfl rfl rfl
  | abortSweep m =>
    simp only [step, ms_drm_abort, sweepP_eq_filter]
    exact inv_sweep st _ tr (fun e => m e.data)
      (fun e => Event.aborted e.uid e.seq e.data) (fun e => rfl) hInv rfl rfl
  | abortSeq s =>
    simp only [step]
    rcases hR : removeFirstSeq s st.queue with ⟨q', ro⟩
    cases ro with
    | none =>
      simp only [ms_drm_abort_seq, hR, List.append_nil]
      exact inv_of_eq st _ tr hInv (removeFirstSeq_none_eq s st.queue q' hR) rfl
    | some e =>
      simp only [ms_drm_abort_seq, hR]
      exact inv_remove_some st _ tr s q' e _ hInv hR rfl rfl rfl

/-- running any stimulus list preserves the accounting invariant -/
theorem run_inv (cs : List Cmd) :
    ∀ st tr, Inv st tr → Inv (run st cs).1 (tr ++ (run st cs).2) := by
  induction cs with
  | nil => intro st tr h; simpa [run] using h
  | cons c cs ih =>
    intro st tr h
    have h1 := step_inv st tr c h
    have h2 := ih (step st c).1 (tr ++ (step st c).2) h1
    simpa [run, List.append_assoc] using h2

/-! ### Capability-probe accounting -/

theorem cap_update_of_tried (st : State) (sup : Bool)
    (h : st.tried_queue_sequence = true) : cap_update st sup = st := by
  simp [cap_update, h]

theorem cap_update_of_not_tried (st : State) (sup : Bool)
    (h : st.tried_queue_sequence = false) :
    cap_update st sup = { st with tried_queue_sequence := true,
                                  has_queue_sequence := sup,
                                  probe_count := st.probe_count + 1 } := by
  simp [cap_update, h]

/-- case analysis of the capability-cache effect of `ms_queue_vblank`: on an
inactive output the state is untouched; otherwise the cache fields come from
`cap_update` and exactly one kernel request style is journalled. -/
theorem ms_queue_vblank_cap_spec (st : State) (crtc : Crtc) (flag : QueueFlag)
    (msc data : Nat) (supports kernel_ok : Bool) :
    (crtc.active = false ∧
     (ms_queue_vblank st crtc flag msc data supports kernel_ok).st = st) ∨
    (crtc.active = true ∧
     (ms_queue_vblank st crtc flag msc data supports kernel_ok).st.tried_queue_sequence =
       (cap_update st supports).tried_queue_sequence ∧
     (ms_queue_vblank st crtc flag msc data supports kernel_ok).st.has_queue_sequence =
       (cap_update st supports).has_queue_sequence ∧
     (ms_queue_vblank st crtc flag msc data supports kernel_ok).st.probe_count =
       (cap_update st supports).probe_count ∧
     (ms_queue_vblank st crtc flag msc data supports kernel_ok).st.styles =
       st.styles ++ [cap_style st supports]) := by
  have hy : (cap_update st supports).styles = st.styles := (cap_update_queue st supports).2.2.2
  unfold ms_queue_vblank
  cases hA : crtc.active with
  | false => left; simp
  | true =>
    right
    refine ⟨rfl, ?_⟩
    simp only [Bool.not_true, Bool.false_eq_true, if_false]
    cases hK : kernel_ok with
    | false => simp [styles_push, hy]
    | true =>
      simp only [Bool.not_true, Bool.false_eq_true, if_false]
      rcases ms_drm_queue_alloc_none_or_some
          (styles_push (cap_update st supports) (cap_style st supports))
          crtc.id data false with hAl | ⟨s, hAl⟩
      · rw [hAl]; simp [styles_push, hy]
      · rw [hAl]; simp [styles_push, hy]

theorem ms_do_pageflip_cap_fields (st : State) (crtc data : Nat)
    (flip_ok : Bool) :
    (ms_do_pageflip st crtc data flip_ok).st.tried_queue_sequence = st.tried_queue_sequence ∧
    (ms_do_pageflip st crtc data flip_ok).st.has_queue_sequence = st.has_queue_sequence ∧
    (ms_do_pageflip st crtc data flip_ok).st.probe_count = st.probe_count ∧
    (ms_do_pageflip st crtc data flip_ok).st.styles = st.styles := by
  unfold ms_do_pageflip
  cases hP : ms_pending_flip st with
  | true => simp
  | false =>
    simp only [Bool.false_eq_true, if_false]
    cases hF : flip_ok with
    | false => simp
    | true =>
      simp only [Bool.not_true, Bool.false_eq_true, if_false]
      rcases ms_drm_queue_alloc_none_or_some st crtc data true with hAl | ⟨s, hAl⟩
      · rw [hAl]; simp
      · rw [hAl]; simp

theorem ms_drm_handler_cap_fields (st : State) (s frame usec : Nat) :
    (ms_drm_handler st s frame usec).1.tried_queue_sequence = st.tried_queue_sequence ∧
    (ms_drm_handler st s frame usec).1.has_queue_sequence = st.has_queue_sequence ∧
    (ms_drm_handler st s frame usec).1.probe_count = st.probe_count ∧
    (ms_drm_handler st s frame usec).1.styles = st.styles := by
  unfold ms_drm_handler
  rcases hR : removeFirstSeq s st.queue with ⟨q', ro⟩
  cases ro <;> simp

theorem ms_drm_abort_cap_fields (st : State) (m : Nat → Bool) :
    (ms_drm_abort st m).1.tried_queue_sequence = st.tried_queue_sequence ∧
    (ms_drm_abort st m).1.has_queue_sequence = st.has_queue_sequence ∧
    (ms_drm_abort st m).1.probe_count = st.probe_count ∧
    (ms_drm_abort st m).1.styles = st.styles := by
  unfold ms_drm_abort
  rcases hS : sweepP (fun e => m e.data) st.queue with ⟨k, r⟩
  simp

theorem ms_drm_abort_seq_cap_fields (st : State) (s : Nat) :
    (ms_drm_abort_seq st s).1.tried_queue_sequence = st.tried_queue_sequence ∧
    (ms_drm_abort_seq st s).1.has_queue_sequence = st.has_queue_sequence ∧
    (ms_drm_abort_seq st s).1.probe_count = st.probe_count ∧
    (ms_drm_abort_seq st s).1.styles = st.styles := by
  unfold ms_drm_abort_seq
  rcases hR : removeFirstSeq s st.queue with ⟨q', ro⟩
  cases ro <;> simp

/-- at-most-one-probe invariant on the capability cache -/
def InvProbe (st : State) : Prop :=
  (st.tried_queue_sequence = false → st.probe_count = 0) ∧ st.probe_count ≤ 1

theorem step_inv_probe (st : State) (c : Cmd) (h : InvProbe st) :
    InvProbe (step st c).1 := by
  obtain ⟨h0, h1⟩ := h
  cases c with
  | queueVblank crtc flag msc data sup ko =>
    simp only [step]
    rcases ms_queue_vblank_cap_spec st crtc flag msc data sup ko with
      ⟨-, hst⟩ | ⟨-, hT, -, hP, -⟩
    · rw [hst]; exact ⟨h0, h1⟩
    · cases hTr : st.tried_queue_sequence with
      | true =>
        rw [cap_update_of_tried st sup hTr] at hT hP
        refine ⟨fun hc => ?_, by rw [hP]; exact h1⟩
        rw [hT, hTr] at hc
        cases hc
      | false =>
        rw [cap_update_of_not_tried st sup hTr] at hT hP
        simp only at hT hP
        refine ⟨fun hc => ?_, by rw [hP, h0 hTr]⟩
        rw [hT] at hc
        cases hc
  | pageflip crtc data fo =>
    obtain ⟨hT, -, hP, -⟩ := ms_do_pageflip_cap_fields st crtc data fo
    exact ⟨by rw [step, hT, hP]; exact h0, by rw [step, hP]; exact h1⟩
  | complete s frame usec =>
    obtain ⟨hT, -, hP, -⟩ := ms_drm_handler_cap_fields st s frame usec
    exact ⟨by rw [step, hT, hP]; exact h0, by rw [step, hP]; exact h1⟩
  | abortSweep m =>
    obtain ⟨hT, -, hP, -⟩ := ms_drm_abort_cap_fields st m
    exact ⟨by rw [step, hT, hP]; exact h0, by rw [step, hP]; exact h1⟩
  | abortSeq s =>
    obtain ⟨hT, -, hP, -⟩ := ms_drm_abort_seq_cap_fields st s
    exact ⟨by rw [step, hT, hP]; exact h0, by rw [step, hP]; exact h1⟩

theorem run_inv_probe (cs : List Cmd) :
    ∀ st, InvProbe st → InvProbe (run st cs).1 := by
  induction cs with
  | nil => intro st h; simpa [run] using h
  | cons c cs ih =>
    intro st h
    exact ih (step st c).1 (step_inv_probe st c h)

/-- once the capability is cached as unsupported, a step never probes again,
never flips the cache, and journals only fallback-style submissions -/
theorem step_frozen (st : State) (c : Cmd)
    (ht : st.tried_queue_sequence = true)
    (hh : st.has_queue_sequence = false) :
    (step st c).1.tried_queue_sequence = true ∧
    (step st c).1.has_queue_sequence = false ∧
    (step st c).1.probe_count = st.probe_count ∧
    ∃ new, (step st c).1.styles = st.styles ++ new ∧
      ∀ x ∈ new, x = Style.fallback := by
  cases c with
  | queueVblank crtc flag msc data sup ko =>
    simp only [step]
    rcases ms_queue_vblank_cap_spec st crtc flag msc data sup ko with
      ⟨-, hst⟩ | ⟨-, hT, hH, hP, hY⟩
    · rw [hst]; exact ⟨ht, hh, rfl, [], by simp, by simp⟩
    · rw [cap_update_of_tried st sup ht] at hT hH hP
      refine ⟨by rw [hT]; exact ht, by rw [hH]; exact hh, by rw [hP], ?_⟩
      refine ⟨[cap_style st sup], hY, ?_⟩
      intro x hx
      simp only [List.mem_singleton] at hx
      subst hx
      simp [cap_style, ht, hh]
  | pageflip crtc data fo =>
    obtain ⟨hT, hH, hP, hY⟩ := ms_do_pageflip_cap_fields st crtc data fo
    exact ⟨by rw [step, hT]; exact ht, by rw [step, hH]; exact hh,
           by rw [step, hP], [], by rw [step, hY]; simp, by simp⟩
  | complete s frame usec =>
    obtain ⟨hT, hH, hP, hY⟩ := ms_drm_handler_cap_fields st s frame usec
    exact ⟨by rw [step, hT]; exact ht, by rw [step, hH]; exact hh,
           by rw [step, hP], [], by rw [step, hY]; simp, by simp⟩
  | abortSweep m =>
    obtain ⟨hT, hH, hP, hY⟩ := ms_drm_abort_cap_fields st m
    exact ⟨by rw [step, hT]; exact ht, by rw [step, hH]; exact hh,
           by rw [step, hP], [], by rw [step, hY]; simp, by simp⟩
  | abortSeq s =>
    obtain ⟨hT, hH, hP, hY⟩ := ms_drm_abort_seq_cap_fields st s
    exact ⟨by rw [step, hT]; exact ht, by rw [step, hH]; exact hh,
           by rw [step, hP], [], by rw [step, hY]; simp, by simp⟩

/-- once the capability is cached as unsupported, a whole run never probes
again and journals only fallback-style submissions -/
theorem run_frozen (cs : List Cmd) :
    ∀ st, st.tried_queue_sequence = true → st.has_queue_sequence = false →
      (run st cs).1.tried_queue_sequence = true ∧
      (run st cs).1.has_queue_sequence = false ∧
      (run st cs).1.probe_count = st.probe_count ∧
      ∃ new, (run st cs).1.styles = st.styles ++ new ∧
        ∀ x ∈ new, x = Style.fallback := by
  induction cs with
  | nil =>
    intro st ht hh
    exact ⟨ht, hh, rfl, [], by simp [run], by simp⟩
  | cons c cs ih =>
    intro st ht hh
    obtain ⟨h1, h2, h3, n1, hy1, hf1⟩ := step_frozen st c ht hh
    obtain ⟨g1, g2, g3, n2, hy2, hf2⟩ := ih (step st c).1 h1 h2
    refine ⟨g1, g2, by rw [run] at *; rw [g3, h3], ?_⟩
    refine ⟨n1 ++ n2, ?_, ?_⟩
    · show (run st (c :: cs)).1.styles = st.styles ++ (n1 ++ n2)
      have : (run st (c :: cs)).1 = (run (step st c).1 cs).1 := by rw [run]
      rw [this, hy2, hy1, List.append_assoc]
    · intro x hx
      rcases List.mem_append.mp hx with h | h
      · exact hf1 x h
      · exact hf2 x h

/-! ### Claim theorems -/

/-- C1: for every request accepted into the pending-request registry
(created via `ms_drm_queue_alloc` through `ms_queue_vblank` or
`ms_do_pageflip`), exactly one of its completion handler or abort handler is
invoked, exactly once, and the entry is removed from the registry atomically
with that invocation: in every run, each accepted request (ghost identity
below the allocation counter) accounts for exactly one handler invocation or
exactly one outstanding registry entry, so no request has both handlers
fire, a handler fire twice, or neither fire while gone from the registry. -/
theorem ms_tracked_request_exactly_one_handler (cmds : List Cmd) (u : Nat)
    (h : u < (run init cmds).1.next_uid) :
    firedCount (run init cmds).2 u + queueCount (run init cmds).1.queue u = 1 ∧
    firedCount (run init cmds).2 u ≤ 1 ∧
    (firedCount (run init cmds).2 u = 1 ↔
      queueCount (run init cmds).1.queue u = 0) := by
  obtain ⟨-, -, h3⟩ := run_inv cmds init [] inv_init
  simp only [List.nil_append] at h3
  have hs := h3 u h
  exact ⟨hs, by omega, by omega⟩

theorem ms_tracked_request_exactly_one_handler_witness :
    0 < (run init [Cmd.queueVblank ⟨0, true, 5⟩ QueueFlag.absolute 10 42 true true,
                   Cmd.complete 1 100 0]).1.next_uid ∧
    firedCount (run init [Cmd.queueVblank ⟨0, true, 5⟩ QueueFlag.absolute 10 42 true true,
                          Cmd.complete 1 100 0]).2 0 +
      queueCount (run init [Cmd.queueVblank ⟨0, true, 5⟩ QueueFlag.absolute 10 42 true true,
                            Cmd.complete 1 100 0]).1.queue 0 = 1 :=
  ⟨by decide,
   (ms_tracked_request_exactly_one_handler
     [Cmd.queueVblank ⟨0, true, 5⟩ QueueFlag.absolute 10 42 true true,
      Cmd.complete 1 100 0] 0 (by decide)).1⟩

/-- C2: an abort sweep `ms_drm_abort` invokes the abort handler of every
registered request whose payload matches the predicate, exactly once each
and in stable insertion order, removes exactly the matched entries, and
leaves every non-matching request unchanged (the remaining registry is
exactly the non-matching entries in their original order). -/
theorem ms_drm_abort_matching_sweep (st : State) (m : Nat → Bool) :
    (ms_drm_abort st m).1.queue = st.queue.filter (fun e => !m e.data) ∧
    (ms_drm_abort st m).2 =
      (st.queue.filter (fun e => m e.data)).map
        (fun e => Event.aborted e.uid e.seq e.data) := by
  unfold ms_drm_abort
  rw [sweepP_eq_filter]
  exact ⟨rfl, rfl⟩

/-- C3: every identifier returned by `ms_drm_queue_alloc` is a non-zero
32-bit value and distinct from the sequence identifier of every request
still outstanding in the registry at allocation time, including after the
32-bit counter wraps around (the search runs modulo 2^32 and skips zero and
taken values). -/
theorem ms_drm_queue_alloc_nonzero_fresh (st : State) (crtc data : Nat)
    (fl : Bool) (s : Nat) (st' : State)
    (h : ms_drm_queue_alloc st crtc data fl = some (s, st')) :
    s ≠ 0 ∧ s < seqWidth ∧ ∀ e ∈ st.queue, e.seq ≠ s := by
  obtain ⟨h1, h2, h3, -⟩ := ms_drm_queue_alloc_some st crtc data fl s st' h
  exact ⟨h1, h2, h3⟩

theorem ms_drm_queue_alloc_nonzero_fresh_witness :
    (2 : Nat) ≠ 0 ∧ (2 : Nat) < seqWidth ∧
      ∀ e ∈ [(⟨0, 3, 1, 0, false⟩ : Entry)], e.seq ≠ 2 :=
  ms_drm_queue_alloc_nonzero_fresh
    { init with ms_drm_seq := seqWidth - 1, queue := [⟨0, 3, 1, 0, false⟩],
                next_uid := 1 }
    5 7 false 2
    { queue := [⟨0, 3, 1, 0, false⟩, ⟨1, 5, 2, 7, false⟩], ms_drm_seq := 2,
      next_uid := 2, has_queue_sequence := false, tried_queue_sequence := false,
      probe_count := 0, styles := [] }
    (by decide)

/-- C4: when the completion dispatcher receives an event for sequence `s`:
if a request with sequence `s` is registered, its completion handler is
invoked with the frame counter, the timestamp and its payload, and only that
entry is removed, all other requests remaining outstanding; if no request
with sequence `s` is registered, the event is discarded silently with no
state change and no handler invocation. -/
theorem ms_completion_dispatch_exact (st : State) (s frame usec : Nat) :
    ((∀ e ∈ st.queue, e.seq ≠ s) → ms_drm_handler st s frame usec = (st, [])) ∧
    (∀ a e b, st.queue = a ++ e :: b → e.seq = s → (∀ x ∈ a, x.seq ≠ s) →
      (ms_drm_handler st s frame usec).1.queue = a ++ b ∧
      (ms_drm_handler st s frame usec).2 =
        [Event.completed e.uid e.seq frame usec e.data]) := by
  constructor
  · intro hno
    unfold ms_drm_handler
    rw [removeFirstSeq_of_not_mem s st.queue hno]
  · intro a e b hq he ha
    have hR : removeFirstSeq s st.queue = (a ++ b, some e) := by
      rw [hq]
      exact removeFirstSeq_decompose s a e b ha he
    have hE : ms_drm_handler st s frame usec =
        ({ st with queue := a ++ b },
         [Event.completed e.uid e.seq frame usec e.data]) := by
      unfold ms_drm_handler
      rw [hR]
    rw [hE]
    exact ⟨rfl, rfl⟩

theorem ms_completion_dispatch_exact_witness :
    (ms_drm_handler
      { init with queue := [⟨0, 0, 10, 7, false⟩, ⟨1, 0, 11, 8, false⟩],
                  next_uid := 2, ms_drm_seq := 11 } 10 100 0).1.queue =
      [⟨1, 0, 11, 8, false⟩] ∧
    (ms_drm_handler
      { init with queue := [⟨0, 0, 10, 7, false⟩, ⟨1, 0, 11, 8, false⟩],
                  next_uid := 2, ms_drm_seq := 11 } 10 100 0).2 =
      [Event.completed 0 10 100 0 7] :=
  (ms_completion_dispatch_exact
    { init with queue := [⟨0, 0, 10, 7, false⟩, ⟨1, 0, 11, 8, false⟩],
                next_uid := 2, ms_drm_seq := 11 } 10 100 0).2
    [] ⟨0, 0, 10, 7, false⟩ [⟨1, 0, 11, 8, false⟩] rfl rfl (by simp)

/-- C5: a `ms_queue_vblank` call with `MS_QUEUE_NEXT_ON_MISS` whose target
counter has already elapsed relative to the output's current hardware
counter is re-targeted to the next vblank instead of failing: the resolved
counter written to `msc_queued` is strictly in the future and differs from
the stale target, and the registered request still completes normally (its
completion handler fires with the caller's payload) when that future vblank
event is dispatched. -/
theorem ms_queue_vblank_next_on_miss_retarget (st : State) (crtc : Crtc)
    (msc data : Nat) (supports kernel_ok : Bool)
    (hmiss : msc ≤ crtc.current_msc)
    (hok : (ms_queue_vblank st crtc QueueFlag.nextOnMiss msc data supports
            kernel_ok).ok = true) :
    (ms_queue_vblank st crtc QueueFlag.nextOnMiss msc data supports
      kernel_ok).msc_queued = crtc.current_msc + 1 ∧
    crtc.current_msc <
      (ms_queue_vblank st crtc QueueFlag.nextOnMiss msc data supports
        kernel_ok).msc_queued ∧
    (ms_queue_vblank st crtc QueueFlag.nextOnMiss msc data supports
      kernel_ok).msc_queued ≠ msc ∧
    ∀ frame usec,
      (ms_drm_handler
        (ms_queue_vblank st crtc QueueFlag.nextOnMiss msc data supports
          kernel_ok).st
        (ms_queue_vblank st crtc QueueFlag.nextOnMiss msc data supports
          kernel_ok).seq frame usec).1.queue = st.queue ∧
      (ms_drm_handler
        (ms_queue_vblank st crtc QueueFlag.nextOnMiss msc data supports
          kernel_ok).st
        (ms_queue_vblank st crtc QueueFlag.nextOnMiss msc data supports
          kernel_ok).seq frame usec).2 =
        [Event.completed st.next_uid
          (ms_queue_vblank st crtc QueueFlag.nextOnMiss msc data supports
            kernel_ok).seq frame usec data] := by
  rcases ms_queue_vblank_spec st crtc QueueFlag.nextOnMiss msc data supports
      kernel_ok with ⟨hof, -, -, -⟩ | ⟨-, s, hseq, -, -, hfresh, hq, -, hm⟩
  · rw [hof] at hok
    exact Bool.noConfusion hok
  · have hres : resolve_target QueueFlag.nextOnMiss crtc.current_msc msc =
        crtc.current_msc + 1 := by
      simp [resolve_target, hmiss]
    rw [hm, hres]
    refine ⟨rfl, by omega, by omega, ?_⟩
    intro frame usec
    have hR : removeFirstSeq
        (ms_queue_vblank st crtc QueueFlag.nextOnMiss msc data supports
          kernel_ok).seq
        (ms_queue_vblank st crtc QueueFlag.nextOnMiss msc data supports
          kernel_ok).st.queue =
        (st.queue, some ⟨st.next_uid, crtc.id, s, data, false⟩) := by
      rw [hseq, hq]
      exact removeFirstSeq_append_fresh s st.queue _ hfresh rfl
    have hE : ms_drm_handler
        (ms_queue_vblank st crtc QueueFlag.nextOnMiss msc data supports
          kernel_ok).st
        (ms_queue_vblank st crtc QueueFlag.nextOnMiss msc data supports
          kernel_ok).seq frame usec =
        ({ (ms_queue_vblank st crtc QueueFlag.nextOnMiss msc data supports
            kernel_ok).st with queue := st.queue },
         [Event.completed st.next_uid s frame usec data]) := by
      unfold ms_drm_handler
      rw [hR]
    rw [hE, hseq]
    exact ⟨rfl, rfl⟩

theorem ms_queue_vblank_next_on_miss_retarget_witness :
    (ms_queue_vblank init ⟨0, true, 50⟩ QueueFlag.nextOnMiss 40 7 true
      true).msc_queued = 50 + 1 ∧
    (ms_drm_handler
      (ms_queue_vblank init ⟨0, true, 50⟩ QueueFlag.nextOnMiss 40 7 true true).st
      (ms_queue_vblank init ⟨0, true, 50⟩ QueueFlag.nextOnMiss 40 7 true true).seq
      51 1000).1.queue = init.queue ∧
    (ms_drm_handler
      (ms_queue_vblank init ⟨0, true, 50⟩ QueueFlag.nextOnMiss 40 7 true true).st
      (ms_queue_vblank init ⟨0, true, 50⟩ QueueFlag.nextOnMiss 40 7 true true).seq
      51 1000).2 =
      [Event.completed init.next_uid
        (ms_queue_vblank init ⟨0, true, 50⟩ QueueFlag.nextOnMiss 40 7 true
          true).seq 51 1000 7] := by
  have h := ms_queue_vblank_next_on_miss_retarget init ⟨0, true, 50⟩ 40 7 true
    true (by decide) (by decide)
  exact ⟨h.1, (h.2.2.2 51 1000).1, (h.2.2.2 51 1000).2⟩

/-- C6: whenever `ms_queue_vblank` or `ms_do_pageflip` fails, no new tracked
request is registered and the registry has exactly the same contents as
before the call (for a failing page flip the whole state is untouched); in
particular `ms_do_pageflip` called while a prior flip is still in flight
fails synchronously with the state unchanged. -/
theorem ms_request_failure_no_mutation (st : State) :
    (∀ (crtc : Crtc) (flag : QueueFlag) (msc data : Nat)
       (supports kernel_ok : Bool),
      (ms_queue_vblank st crtc flag msc data supports kernel_ok).ok = false →
      (ms_queue_vblank st crtc flag msc data supports kernel_ok).st.queue =
        st.queue ∧
      (ms_queue_vblank st crtc flag msc data supports kernel_ok).st.ms_drm_seq =
        st.ms_drm_seq ∧
      (ms_queue_vblank st crtc flag msc data supports kernel_ok).st.next_uid =
        st.next_uid) ∧
    (∀ (crtc data : Nat) (flip_ok : Bool),
      (ms_do_pageflip st crtc data flip_ok).ok = false →
      (ms_do_pageflip st crtc data flip_ok).st = st) ∧
    (ms_pending_flip st = true →
      ∀ (crtc data : Nat) (flip_ok : Bool),
        ms_do_pageflip st crtc data flip_ok = ⟨false, st, 0⟩) := by
  refine ⟨?_, ?_, ?_⟩
  · intro crtc flag msc data sup ko hf
    rcases ms_queue_vblank_spec st crtc flag msc data sup ko with
      ⟨-, hq, hs, hu⟩ | ⟨hot, -⟩
    · exact ⟨hq, hs, hu⟩
    · rw [hot] at hf
      exact Bool.noConfusion hf
  · intro crtc data fo hf
    rcases ms_do_pageflip_spec st crtc data fo with ⟨-, hst⟩ | ⟨hot, -⟩
    · exact hst
    · rw [hot] at hf
      exact Bool.noConfusion hf
  · intro hp crtc data fo
    unfold ms_do_pageflip
    rw [hp]
    simp

/-- a driver state with one flip request in flight, used to exercise the
failure paths of the scheduler and the page-flip orchestrator -/
def pending_flip_state : State :=
  { init with queue := [⟨0, 0, 1, 0, true⟩], next_uid := 1, ms_drm_seq := 1 }

theorem ms_request_failure_no_mutation_witness :
    (ms_queue_vblank pending_flip_state ⟨0, false, 0⟩ QueueFlag.absolute 0 0
      true true).st.queue = pending_flip_state.queue ∧
    (ms_do_pageflip pending_flip_state 1 2 true).st = pending_flip_state ∧
    ms_do_pageflip pending_flip_state 1 2 true =
      ⟨false, pending_flip_state, 0⟩ := by
  have h := ms_request_failure_no_mutation pending_flip_state
  exact ⟨(h.1 ⟨0, false, 0⟩ QueueFlag.absolute 0 0 true true (by decide)).1,
         h.2.1 1 2 true (by decide), h.2.2 (by decide) 1 2 true⟩

theorem ms_drm_abort_seq_no_match (st : State) (s : Nat)
    (h : ∀ x ∈ st.queue, x.seq ≠ s) : ms_drm_abort_seq st s = (st, []) := by
  unfold ms_drm_abort_seq
  rw [removeFirstSeq_of_not_mem s st.queue h]

/-- C7: abort is idempotent: with distinct sequence identifiers in the
registry, a targeted `ms_drm_abort_seq` fires the abort handler at most
once; aborting the same sequence a second time, or aborting a sequence that
has already completed through the dispatcher, is a no-op (state unchanged,
no handler invocation), not an error. -/
theorem ms_drm_abort_seq_idempotent (st : State) (s frame usec : Nat)
    (hN : (st.queue.map Entry.seq).Nodup) :
    ms_drm_abort_seq (ms_drm_abort_seq st s).1 s =
      ((ms_drm_abort_seq st s).1, []) ∧
    (ms_drm_abort_seq st s).2.length ≤ 1 ∧
    ms_drm_abort_seq (ms_drm_handler st s frame usec).1 s =
      ((ms_drm_handler st s frame usec).1, []) := by
  have hno := removeFirstSeq_fst_no_match s st.queue hN
  rcases hR : removeFirstSeq s st.queue with ⟨q', ro⟩
  rw [hR] at hno
  simp only at hno
  have habort : (ms_drm_abort_seq st s).1.queue = q' := by
    unfold ms_drm_abort_seq
    rw [hR]
    cases ro <;> rfl
  have hhandler : (ms_drm_handler st s frame usec).1.queue = q' := by
    unfold ms_drm_handler
    rw [hR]
    cases ro <;> rfl
  refine ⟨?_, ?_, ?_⟩
  · apply ms_drm_abort_seq_no_match
    rw [habort]
    exact hno
  · unfold ms_drm_abort_seq
    rw [hR]
    cases ro <;> simp
  · apply ms_drm_abort_seq_no_match
    rw [hhandler]
    exact hno

/-- a driver state with a single vblank request outstanding at sequence 5,
used to exercise targeted abort -/
def one_request_state : State :=
  { init with queue := [⟨0, 0, 5, 1, false⟩], next_uid := 1, ms_drm_seq := 5 }

theorem ms_drm_abort_seq_idempotent_witness :
    ms_drm_abort_seq (ms_drm_abort_seq one_request_state 5).1 5 =
      ((ms_drm_abort_seq one_request_state 5).1, []) ∧
    (ms_drm_abort_seq one_request_state 5).2.length ≤ 1 ∧
    ms_drm_abort_seq (ms_drm_handler one_request_state 5 9 9).1 5 =
      ((ms_drm_handler one_request_state 5 9 9).1, []) := by
  have h := ms_drm_abort_seq_idempotent one_request_state 5 9 9 (by decide)
  exact ⟨h.1, h.2.1, h.2.2⟩

/-- C8: the queue-sequence kernel capability is probed at most once per
process generation: in any run from the initial state at most one probe is
issued; the first attempted queue-sequence request (on an active output)
sets `tried_queue_sequence` and caches the kernel's answer in
`has_queue_sequence`; and once the capability is cached as unsupported, no
further run ever probes again and every subsequent kernel submission uses
the fallback polling style. -/
theorem ms_queue_sequence_probe_once (cmds : List Cmd) :
    (run init cmds).1.probe_count ≤ 1 ∧
    ((run init cmds).1.tried_queue_sequence = true →
     (run init cmds).1.has_queue_sequence = false →
     ∀ cmds2,
       (run (run init cmds).1 cmds2).1.probe_count =
         (run init cmds).1.probe_count ∧
       ∃ new, (run (run init cmds).1 cmds2).1.styles =
           (run init cmds).1.styles ++ new ∧
         ∀ x ∈ new, x = Style.fallback) ∧
    (∀ (crtc : Crtc) (flag : QueueFlag) (msc data : Nat)
       (supports kernel_ok : Bool),
      crtc.active = true →
      (run init cmds).1.tried_queue_sequence = false →
      (ms_queue_vblank (run init cmds).1 crtc flag msc data supports
        kernel_ok).st.tried_queue_sequence = true ∧
      (ms_queue_vblank (run init cmds).1 crtc flag msc data supports
        kernel_ok).st.has_queue_sequence = supports) := by
  have hinv : InvProbe init := ⟨fun _ => rfl, Nat.zero_le 1⟩
  refine ⟨(run_inv_probe cmds init hinv).2, ?_, ?_⟩
  · intro ht hh cmds2
    obtain ⟨-, -, h3, new, hy, hf⟩ := run_frozen cmds2 (run init cmds).1 ht hh
    exact ⟨h3, new, hy, hf⟩
  · intro crtc flag msc data sup ko hA hT
    rcases ms_queue_vblank_cap_spec (run init cmds).1 crtc flag msc data sup ko
      with ⟨hA0, -⟩ | ⟨-, hT1, hH1, -, -⟩
    · rw [hA] at hA0
      exact Bool.noConfusion hA0
    · rw [cap_update_of_not_tried _ sup hT] at hT1 hH1
      exact ⟨hT1, hH1⟩

/-- a run whose single vblank request probes the queue-sequence capability
and finds it unsupported -/
def probe_unsupported_run : List Cmd :=
  [Cmd.queueVblank ⟨0, true, 5⟩ QueueFlag.absolute 10 0 false true]

theorem ms_queue_sequence_probe_once_witness :
    (run init probe_unsupported_run).1.probe_count ≤ 1 ∧
    (run (run init probe_unsupported_run).1
      [Cmd.queueVblank ⟨0, true, 6⟩ QueueFlag.absolute 11 1 true
        true]).1.probe_count =
      (run init probe_unsupported_run).1.probe_count := by
  have h := ms_queue_sequence_probe_once probe_unsupported_run
  exact ⟨h.1,
    (h.2.1 (by decide) (by decide)
      [Cmd.queueVblank ⟨0, true, 6⟩ QueueFlag.absolute 11 1 true true]).1⟩

/-- C9: `ms_window_has_variable_refresh` returns true if and only if VRR is
negotiated (the connector is VRR-capable), VRR is enabled, and the window is
the current flip target; and `ms_present_set_screen_vrr` changes only the
enabled state, leaving the negotiated capability and the flip target
unchanged. -/
theorem ms_vrr_query_and_set_enabled (vs : VrrState) (win : Nat) (b : Bool) :
    (ms_window_has_variable_refresh vs win = true ↔
      vs.is_connector_vrr_capable = true ∧ vs.vrr_enabled = true ∧
      vs.flip_window = some win) ∧
    (ms_present_set_screen_vrr vs b).is_connector_vrr_capable =
      vs.is_connector_vrr_capable ∧
    (ms_present_set_screen_vrr vs b).flip_window = vs.flip_window ∧
    (ms_present_set_screen_vrr vs b).vrr_enabled = b := by
  refine ⟨?_, rfl, rfl, rfl⟩
  simp [ms_window_has_variable_refresh, Bool.and_eq_true, and_assoc]

/-- C10: `ms_kernel_msc_to_crtc_msc` maps the kernel-reported sequence into
a software frame counter that never decreases across successive completions
on the same output: with the 32-bit kernel counter, a wraparound (the new
value comparing below the previous one) adds one 2^32 epoch instead of
letting the result go backwards, and the per-output previous-value state
stays a 32-bit value; a 64-bit kernel sequence passes through unchanged. -/
theorem ms_kernel_msc_to_crtc_msc_monotone (cs : CrtcMscState) (s1 s2 : Nat) :
    (ms_kernel_msc_to_crtc_msc cs s1 false).1 ≤
      (ms_kernel_msc_to_crtc_msc (ms_kernel_msc_to_crtc_msc cs s1 false).2 s2
        false).1 ∧
    (ms_kernel_msc_to_crtc_msc cs s1 false).2.msc_prev < seqWidth ∧
    (s2 % seqWidth < (ms_kernel_msc_to_crtc_msc cs s1 false).2.msc_prev →
      (ms_kernel_msc_to_crtc_msc (ms_kernel_msc_to_crtc_msc cs s1 false).2 s2
        false).2.msc_high =
        (ms_kernel_msc_to_crtc_msc cs s1 false).2.msc_high + seqWidth) ∧
    (∀ s, ms_kernel_msc_to_crtc_msc cs s true = (s, cs)) := by
  have hW : 0 < seqWidth := by norm_num [seqWidth]
  have hm1 : s1 % seqWidth < seqWidth := Nat.mod_lt _ hW
  have hm2 : s2 % seqWidth < seqWidth := Nat.mod_lt _ hW
  by_cases h1 : s1 % seqWidth < cs.msc_prev <;>
    by_cases h2 : s2 % seqWidth < s1 % seqWidth <;>
      simp [ms_kernel_msc_to_crtc_msc, h1, h2] <;> omega

theorem ms_kernel_msc_to_crtc_msc_monotone_witness :
    (ms_kernel_msc_to_crtc_msc ⟨0, 0⟩ (seqWidth - 1) false).1 ≤
      (ms_kernel_msc_to_crtc_msc
        (ms_kernel_msc_to_crtc_msc ⟨0, 0⟩ (seqWidth - 1) false).2 5 false).1 ∧
    (ms_kernel_msc_to_crtc_msc
      (ms_kernel_msc_to_crtc_msc ⟨0, 0⟩ (seqWidth - 1) false).2 5
      false).2.msc_high =
      (ms_kernel_msc_to_crtc_msc ⟨0, 0⟩ (seqWidth - 1) false).2.msc_high +
        seqWidth := by
  have h := ms_kernel_msc_to_crtc_msc_monotone ⟨0, 0⟩ (seqWidth - 1) 5
  exact ⟨h.1, h.2.2.1 (by decide)⟩

end MsDrm
